import Mathlib

/-!
# VSCodroid PTY bridge (`android/app/src/main/cpp/ptybridge.c`)

A shallow embedding of the bridge's helpers (`derive_argv0`, the size-path
computation of `main`, `handle_sigwinch`, `write_all`) and of the relay loop of
`main`, followed by the properties proved about them.

Conventions.
* A C string is the list of its characters before the terminating NUL; a
  pointer into a string is an offset into that list.
* The bytes of a buffer are natural numbers below 256.
* Results of system calls come from outside; a failing call stores its error
  number in `errno`, a succeeding call leaves `errno` alone.
* A loop that may not end is run for a bounded number of steps (`fuel`) and
  reports whether it has ended.
-/

namespace PtyBridge

/-! ## `derive_argv0` and the libc string functions it calls -/

/-- The libc `strrchr(s, c)`: offset of the last occurrence of `c` in `s`, `none` for NULL. -/
def strrchr : List Char → Char → Option Nat
  | [], _ => none
  | x :: xs, c =>
    match strrchr xs c with
    | some i => some (i + 1)
    | none => if x = c then some 0 else none

/-- The libc `strstr(hay, needle)`: offset of the first occurrence of `needle` in `hay`,
`none` for NULL. -/
def strstr : List Char → List Char → Option Nat
  | [], needle => if needle = [] then some 0 else none
  | h :: hs, needle =>
    if needle.isPrefixOf (h :: hs) then some 0
    else (strstr hs needle).map (· + 1)

/-- The libc `strncmp(a, b, n)`: compares at most `n` characters, an exhausted list
standing for the terminating NUL. -/
def strncmp : List Char → List Char → Nat → Int
  | _, _, 0 => 0
  | [], [], _ + 1 => 0
  | [], b :: _, _ + 1 => 0 - (b.toNat : Int)
  | a :: _, [], _ + 1 => (a.toNat : Int)
  | a :: as, b :: bs, n + 1 =>
    if a = b then strncmp as bs n else (a.toNat : Int) - (b.toNat : Int)

/-- The `base` pointer of `derive_argv0`: the part after the last `'/'`, or the
whole path when there is none. -/
def basename (path : List Char) : List Char :=
  match strrchr path '/' with
  | some i => path.drop (i + 1)
  | none => path

/-- The function `derive_argv0(path)`; `sizeof(buf)` is 64. -/
def derive_argv0 (path : List Char) : List Char :=
  let base := basename path
  if strncmp base "lib".toList 3 = 0 then
    let start := base.drop 3
    match strstr start ".so".toList with
    | some dot => if dot < 64 then start.take dot else path
    | none => path
  else path

/-- The naming pattern as the specification words it: the filename starts with
`lib` and, after that prefix, ends with `.so`. -/
def isWrappedLibraryName (file : List Char) : Prop :=
  "lib".toList <+: file ∧ ".so".toList <:+ file.drop 3

/-! ## The side-channel path computed by `main` -/

/-- The array `static char g_tmpdir[256] = "/tmp";` as its 256 elements. -/
def g_tmpdir_init : List Char := "/tmp".toList ++ List.replicate 252 '\x00'

/-- The C string held in a `char` array: the elements before the first NUL. -/
def cstr (a : List Char) : List Char := a.takeWhile (· != '\x00')

/-- The libc `strncpy(dst, src, n)` on the array `dst`: the first `n` elements become
`src` followed by NUL padding (or the first `n` characters of `src`). -/
def strncpy (dst src : List Char) (n : Nat) : List Char :=
  (src ++ List.replicate (n - src.length) '\x00').take n ++ dst.drop n

/-- The `g_tmpdir` array after
`if (tmpdir && strlen(tmpdir) < sizeof(g_tmpdir)) strncpy(g_tmpdir, tmpdir, sizeof(g_tmpdir) - 1);`
where `tmpdir` is the result of `getenv("TMPDIR")`. -/
def cache_tmpdir (tmpdir : Option (List Char)) : List Char :=
  match tmpdir with
  | some t => if t.length < 256 then strncpy g_tmpdir_init t 255 else g_tmpdir_init
  | none => g_tmpdir_init

/-- Conversion `%d` of an `int`. -/
def fmt_d (v : Int) : List Char :=
  if v < 0 then '-' :: (Nat.repr v.natAbs).toList else (Nat.repr v.toNat).toList

/-- The call `snprintf(g_size_path, size, "%s/.pty-size-%d", dir, pid)`: the
formatted text cut to `size - 1` characters. -/
def snprintf_size_path (size : Nat) (dir : List Char) (pid : Int) : List Char :=
  (dir ++ "/.pty-size-".toList ++ fmt_d pid).take (size - 1)

/-- The string `g_size_path` holds after start-up; `sizeof(g_size_path)` is 320. -/
def size_path (tmpdir : Option (List Char)) (pid : Int) : List Char :=
  snprintf_size_path 320 (cstr (cache_tmpdir tmpdir)) pid

/-- The directory the specification names: the variable's value when present
and shorter than 256 bytes, `/tmp` otherwise. -/
def chosen_tmpdir (tmpdir : Option (List Char)) : List Char :=
  match tmpdir with
  | some t => if t.length < 256 then t else "/tmp".toList
  | none => "/tmp".toList

/-! ## `handle_sigwinch` -/

/-- The test `*p == ' ' || *p == '\t'` on a byte of the buffer. -/
def isBlank (b : Nat) : Bool := b == 32 || b == 9

/-- The test `*p >= '0' && *p <= '9'` on a byte of the buffer. -/
def isDigit (b : Nat) : Bool := decide (48 ≤ b) && decide (b ≤ 57)

/-- The loop `while (*p == ' ' || *p == '\t') p++;`. -/
def skipBlanks : List Nat → List Nat
  | [] => []
  | b :: bs => if isBlank b then skipBlanks bs else b :: bs

/-- Arithmetic on `int`: 32 bits, two's complement.  (Signed overflow is
undefined in C; the wrap-around model is what the target compilers produce.) -/
def wrapInt (x : Int) : Int := (x + 2 ^ 31) % 2 ^ 32 - 2 ^ 31

/-- The loop `while (*p >= '0' && *p <= '9') v = v * 10 + (*p++ - '0');` returning the
value and the advanced pointer. -/
def scanInt : Int → List Nat → Int × List Nat
  | acc, [] => (acc, [])
  | acc, b :: bs =>
    if isDigit b then scanInt (wrapInt (acc * 10 + ((b : Int) - 48))) bs
    else (acc, b :: bs)

/-- What `open`/`read` on `g_size_path` find. -/
inductive SizeFile where
  | missing
  | unreadable
  | content (bytes : List Nat)
deriving DecidableEq, Repr

/-- The `struct winsize` restricted to the fields set; both are `unsigned short`. -/
structure Winsize where
  ws_row : Nat
  ws_col : Nat
deriving DecidableEq, Repr

/-- Observable effect of one run of the handler. -/
structure SigwinchEffect where
  /-- whether `unlink(g_size_path)` was called -/
  unlinked : Bool
  /-- the argument of the `ioctl(g_master_fd, TIOCSWINSZ, &ws)` call, if made -/
  applied : Option Winsize
deriving DecidableEq, Repr

/-- The handler `handle_sigwinch`; `sizeof(buf) - 1` is 31. -/
def handle_sigwinch (g_master_fd g_child_pid : Int) (file : SizeFile) : SigwinchEffect :=
  if g_master_fd < 0 ∨ g_child_pid ≤ 0 then ⟨false, none⟩
  else
    match file with
    | .missing => ⟨false, none⟩
    | .unreadable => ⟨true, none⟩
    | .content bytes =>
      let data := bytes.take 31
      if data.length = 0 then ⟨true, none⟩
      else
        let buf := data ++ [0]
        let p := skipBlanks buf
        let (cols, p) := scanInt 0 p
        let p := skipBlanks p
        let (rows, _) := scanInt 0 p
        if cols > 0 ∧ rows > 0 then
          ⟨true, some ⟨(rows % 65536).toNat, (cols % 65536).toNat⟩⟩
        else ⟨true, none⟩

/-- Bytes of a string literal. -/
def bytesOf (s : String) : List Nat := s.toList.map Char.toNat

/-- ASCII decimal text of a number. -/
def decimal (n : Nat) : List Nat := bytesOf (Nat.repr n)

/-- The payload `"<cols> <rows>"`. -/
def payload (cols rows : Nat) : List Nat := decimal cols ++ [32] ++ decimal rows

/-- ASCII whitespace (`isspace` in the C locale). -/
def isSpace (b : Nat) : Bool := b == 32 || (decide (9 ≤ b) && decide (b ≤ 13))

/-- The documented payload form `"<cols> <rows>"`, following the specification's
words: a positive ASCII-decimal integer, whitespace, a positive ASCII-decimal
integer, and nothing else. -/
def isSizePayload (bs : List Nat) : Bool :=
  let d1 := bs.takeWhile isDigit
  let r1 := bs.dropWhile isDigit
  let w := r1.takeWhile isSpace
  let r2 := r1.dropWhile isSpace
  let d2 := r2.takeWhile isDigit
  let r3 := r2.dropWhile isDigit
  !d1.isEmpty && !w.isEmpty && !d2.isEmpty && r3.isEmpty
    && d1.any (· != 48) && d2.any (· != 48)

/-- The shape the scanner of `handle_sigwinch` accepts at the start of what it
read: optional blanks, a run of digits, at least one blank, a run of digits. -/
def beginsWithTwoNumbers (bs : List Nat) : Bool :=
  let r0 := bs.dropWhile isBlank
  let d1 := r0.takeWhile isDigit
  let r1 := r0.dropWhile isDigit
  let w := r1.takeWhile isBlank
  let r2 := r1.dropWhile isBlank
  let d2 := r2.takeWhile isDigit
  !d1.isEmpty && !w.isEmpty && !d2.isEmpty

/-! ## `write_all` -/

/-- The number `EINTR` of `<errno.h>` on Linux/bionic. -/
def EINTR : Int := 4

/-- The number `EAGAIN` of `<errno.h>` on Linux/bionic. -/
def EAGAIN : Int := 11

/-- The number `EWOULDBLOCK` of `<errno.h>` on Linux/bionic (the same as `EAGAIN`). -/
def EWOULDBLOCK : Int := 11

/-- The number `EIO` of `<errno.h>` on Linux/bionic. -/
def EIO : Int := 5

/-- Result of one `write(2)` call: a byte count `n ≥ 0`, or `-1` with an error
number stored in `errno`. -/
inductive WriteResult where
  | ok (n : Nat)
  | err (e : Int)
deriving DecidableEq, Repr

/-- The results of the `write` calls of one `write_all` call: the result of the
call number `i` (from 0) when it is asked to write `req` bytes. -/
abbrev WriteOracle := Nat → Nat → WriteResult

/-- State of `write_all`. -/
structure WriteAll where
  /-- the local `written` -/
  written : Nat
  /-- the value of `errno` -/
  errno : Int
  /-- number of `write` calls made so far -/
  calls : Nat
  /-- the bytes the descriptor accepted so far, in order -/
  delivered : List Nat
  /-- the function has returned -/
  returned : Bool
deriving DecidableEq, Repr

/-- The loop of `write_all(fd, buf, len)`, run for at most `fuel` calls of `write`. -/
def write_all_loop (w : WriteOracle) (buf : List Nat) (len : Nat) : Nat → WriteAll → WriteAll
  | fuel, st =>
    if st.written < len then
      match fuel with
      | 0 => st
      | fuel + 1 =>
        match w st.calls (len - st.written) with
        | .err e =>
          if e = EINTR then
            write_all_loop w buf len fuel { st with errno := e, calls := st.calls + 1 }
          else if e = EAGAIN ∨ e = EWOULDBLOCK then
            { st with errno := e, calls := st.calls + 1, returned := true }
          else
            { st with errno := e, calls := st.calls + 1, returned := true }
        | .ok n =>
          write_all_loop w buf len fuel
            { st with
              calls := st.calls + 1
              written := st.written + n
              delivered := st.delivered ++ (buf.drop st.written).take n }
    else { st with returned := true }

/-- The function `write_all(fd, buf, len)` entered with the given `errno`. -/
def write_all (fuel : Nat) (w : WriteOracle) (errno : Int) (buf : List Nat) (len : Nat) :
    WriteAll :=
  write_all_loop w buf len fuel ⟨0, errno, 0, [], false⟩

/-- A result after which the loop of `write_all` goes round again with nothing
written: an interrupted call or a zero byte count. -/
def WriteResult.stalls : WriteResult → Bool
  | .ok n => n == 0
  | .err e => e == EINTR

/-! ## The relay loop of `main` -/

/-- Result of one `read(2)` call: the bytes read (`n` is their number, none at
end of stream; at most `sizeof(buf)` by the contract of `read`), or `-1` with
an error number stored in `errno`. -/
inductive ReadResult where
  | bytes (bs : List Nat)
  | err (e : Int)
deriving DecidableEq, Repr

/-- Result of the `select` call: `ret < 0` with an error number, or `ret ≥ 0`
with the readability it reports for standard input and for the PTY master. -/
inductive SelectResult where
  | err (e : Int)
  | ready (stdin master : Bool)
deriving DecidableEq, Repr

/-- Result of `waitpid(pid, &status, WNOHANG)`: `0` (child still running), `-1`
with an error number, or the pid with the wait status. -/
inductive WaitResult where
  | running
  | err (e : Int)
  | reaped (status : Nat)
deriving DecidableEq, Repr

/-- The macro `WTERMSIG(s)` of bionic `<sys/wait.h>`: `s & 0x7f`. -/
def WTERMSIG (s : Nat) : Nat := s % 128

/-- The macro `WEXITSTATUS(s)`: `(s & 0xff00) >> 8`. -/
def WEXITSTATUS (s : Nat) : Nat := (s / 256) % 256

/-- The macro `WIFEXITED(s)`: `WTERMSIG(s) == 0`. -/
def WIFEXITED (s : Nat) : Bool := WTERMSIG s == 0

/-- The macro `WIFSIGNALED(s)`: `WTERMSIG(s + 1) >= 2`. -/
def WIFSIGNALED (s : Nat) : Bool := decide (2 ≤ WTERMSIG (s + 1))

/-- Wait status of a child that called `exit(N)`. -/
def status_exited (N : Nat) : Nat := (N % 256) * 256

/-- Wait status of a child killed by signal `S` (bit 7: core dumped). -/
def status_signaled (S : Nat) (core : Bool) : Nat := S + (if core then 128 else 0)

/-- Everything the outside world answers during one iteration of the loop; a
result is used only if the iteration makes the call. -/
structure IterInput where
  sel : SelectResult
  stdin_read : ReadResult
  stdin_writes : WriteOracle
  master_read : ReadResult
  master_writes : WriteOracle
  wait : WaitResult
  drain_read : ReadResult
  drain_writes : WriteOracle

/-- State of the relay loop.  The fields after `buf` are a record of what
happened (never read by the loop). -/
structure Relay where
  child_exited : Bool
  exit_status : Int
  errno : Int
  /-- the array `char buf[4096]` -/
  buf : List Nat
  /-- chunks read from standard input, in order -/
  stdin_chunks : List (List Nat)
  /-- bytes the PTY master accepted, in order -/
  to_master : List Nat
  /-- chunks read from the PTY master, in order -/
  master_chunks : List (List Nat)
  /-- bytes standard output accepted, in order -/
  to_stdout : List Nat
  /-- number of `waitpid` calls made -/
  wait_calls : Nat
deriving DecidableEq, Repr

/-- Where an iteration leaves the loop: going round again, left by `break`, or
inside a `write_all` that has not returned within the calls allowed. -/
inductive Step where
  | next (s : Relay)
  | done (s : Relay)
  | hung (s : Relay)
deriving DecidableEq, Repr

/-- The state carried by a step. -/
def Step.state : Step → Relay
  | .next s => s
  | .done s => s
  | .hung s => s

/-- Sequencing of the parts of an iteration. -/
def Step.andThen : Step → (Relay → Step) → Step
  | .next s, f => f s
  | .done s, _ => .done s
  | .hung s, _ => .hung s

/-- The call `write_all(master_fd, buf, n)` after
`n = read(STDIN_FILENO, buf, sizeof(buf))` gave the `n > 0` bytes `bs`. -/
def relay_to_master (fuel : Nat) (w : WriteOracle) (bs : List Nat) (s : Relay) : Step :=
  let buf := bs ++ s.buf.drop bs.length
  let r := write_all fuel w s.errno buf bs.length
  let s' := { s with
    buf := buf
    errno := r.errno
    stdin_chunks := s.stdin_chunks ++ [bs]
    to_master := s.to_master ++ r.delivered }
  if r.returned then .next s' else .hung s'

/-- The call `write_all(STDOUT_FILENO, buf, n)` after
`n = read(master_fd, buf, sizeof(buf))` gave the `n > 0` bytes `bs`. -/
def relay_to_stdout (fuel : Nat) (w : WriteOracle) (bs : List Nat) (s : Relay) : Step :=
  let buf := bs ++ s.buf.drop bs.length
  let r := write_all fuel w s.errno buf bs.length
  let s' := { s with
    buf := buf
    errno := r.errno
    master_chunks := s.master_chunks ++ [bs]
    to_stdout := s.to_stdout ++ r.delivered }
  if r.returned then .next s' else .hung s'

/-- The block `/* stdin -> PTY master */`; `isset` is `FD_ISSET(STDIN_FILENO, &rfds)`. -/
def stdin_stage (fuel : Nat) (i : IterInput) (isset : Bool) (s : Relay) : Step :=
  if isset then
    match i.stdin_read with
    | .err e => .next { s with errno := e }
    | .bytes bs =>
      if 0 < bs.length then relay_to_master fuel i.stdin_writes bs s
      else .next s
  else .next s

/-- The block `/* PTY master -> stdout */`; `isset` is `FD_ISSET(master_fd, &rfds)`. -/
def master_stage (fuel : Nat) (i : IterInput) (isset : Bool) (s : Relay) : Step :=
  if isset then
    match i.master_read with
    | .err e =>
      if e ≠ EAGAIN ∧ e ≠ EINTR then .done { s with errno := e }
      else .next { s with errno := e }
    | .bytes bs =>
      if 0 < bs.length then relay_to_stdout fuel i.master_writes bs s
      else if s.errno ≠ EAGAIN ∧ s.errno ≠ EINTR then .done s
      else .next s
  else .next s

/-- The assignments to `exit_status` after `waitpid` returned the child. -/
def record_status (status : Nat) (exit_status : Int) : Int :=
  if WIFEXITED status then (WEXITSTATUS status : Int)
  else if WIFSIGNALED status then 128 + (WTERMSIG status : Int)
  else exit_status

/-- The block `/* Check for child exit */`. -/
def exit_stage (fuel : Nat) (i : IterInput) (s : Relay) : Step :=
  if !s.child_exited then
    match i.wait with
    | .reaped status =>
      .next { s with
        child_exited := true
        exit_status := record_status status s.exit_status
        wait_calls := s.wait_calls + 1 }
    | .running => .next { s with wait_calls := s.wait_calls + 1 }
    | .err e => .next { s with errno := e, wait_calls := s.wait_calls + 1 }
  else
    match i.drain_read with
    | .err e =>
      if e ≠ EAGAIN ∧ e ≠ EINTR then .done { s with errno := e }
      else .next { s with errno := e }
    | .bytes bs =>
      if 0 < bs.length then relay_to_stdout fuel i.drain_writes bs s
      else if s.errno ≠ EAGAIN ∧ s.errno ≠ EINTR then .done s
      else .next s

/-- One iteration of `while (1)`.  Standard input is in the set given to
`select` only while `!child_exited`. -/
def relay_iteration (fuel : Nat) (s : Relay) (i : IterInput) : Step :=
  match i.sel with
  | .err e =>
    if e = EINTR then .next { s with errno := e }
    else .done { s with errno := e }
  | .ready rin rmaster =>
    (stdin_stage fuel i (!s.child_exited && rin) s).andThen fun s1 =>
    (master_stage fuel i rmaster s1).andThen fun s2 =>
    exit_stage fuel i s2

/-- The loop, run on the answers of successive iterations; `.next` when the
answers are used up and the loop is still going. -/
def relay_loop (fuel : Nat) : List IterInput → Relay → Step
  | [], s => .next s
  | i :: rest, s =>
    match relay_iteration fuel s i with
    | .next s' => relay_loop fuel rest s'
    | .done s' => .done s'
    | .hung s' => .hung s'

/-- The locals of `main` when the loop is entered. -/
def relay_start (errno : Int) (buf : List Nat) : Relay :=
  { child_exited := false, exit_status := 0, errno := errno, buf := buf,
    stdin_chunks := [], to_master := [], master_chunks := [], to_stdout := [],
    wait_calls := 0 }

/-- The value of `return exit_status;` once the loop has been left. -/
def main_return : Step → Option Int
  | .done s => some s.exit_status
  | _ => none

/-- Answers of an iteration in which `select` times out and nothing happens. -/
def idle : IterInput :=
  { sel := .ready false false, stdin_read := .err EAGAIN, stdin_writes := fun _ _ => .ok 0,
    master_read := .err EAGAIN, master_writes := fun _ _ => .ok 0, wait := .running,
    drain_read := .err EAGAIN, drain_writes := fun _ _ => .ok 0 }

/-! ### Lifecycle -/

/-- The termination record of `s'` is that of `s`: same flag, same status, no
further `waitpid` call. -/
def Frozen (s s' : Relay) : Prop :=
  s'.child_exited = s.child_exited ∧ s'.exit_status = s.exit_status
    ∧ s'.wait_calls = s.wait_calls

/-- Answers of an iteration in which `select` times out and `waitpid` returns
the child, which called `exit(3)`. -/
def child_exit_3 : IterInput := { idle with wait := .reaped (status_exited 3) }

/-- Answers of an iteration in which `select` times out and the draining read
of the PTY master fails with `EIO`. -/
def drain_eio : IterInput := { idle with drain_read := .err EIO }

/-- Answers of an iteration in which `select` reports the PTY master readable
and the read fails with `EIO` (the slave side is closed), the child having
called `exit(3)`. -/
def hangup_exit_3 : IterInput :=
  { idle with sel := .ready false true, master_read := .err EIO,
              wait := .reaped (status_exited 3) }

/-- Answers of an iteration in which `select` times out and the draining read
of the PTY master would block. -/
def drain_would_block : IterInput := { idle with drain_read := .err EAGAIN }

/-- Answers of an iteration in which `select` times out and the draining read
of the PTY master returns 0 bytes. -/
def drain_eof : IterInput := { idle with drain_read := .bytes [] }

/-- Answers of an iteration in which standard input gives one byte, the PTY
master does not take it (`EAGAIN`), and the read of the PTY master returns 0. -/
def backpressure_then_eof : IterInput :=
  { idle with sel := .ready true true, stdin_read := .bytes [104],
              stdin_writes := fun _ _ => .err EAGAIN, master_read := .bytes [] }

/-! ### Order of the relayed bytes -/

/-- Every successful `write` reports at most the number of bytes requested. -/
def Bounded (w : WriteOracle) : Prop := ∀ i req n, w i req = .ok n → n ≤ req

/-- In each direction the bytes accepted so far are the concatenation, in read
order, of prefixes of the chunks read. -/
def InOrder (s : Relay) : Prop :=
  (∃ ps, List.Forall₂ (· <+: ·) ps s.master_chunks ∧ s.to_stdout = ps.flatten)
    ∧ (∃ qs, List.Forall₂ (· <+: ·) qs s.stdin_chunks ∧ s.to_master = qs.flatten)

/-- The write results of an iteration all report at most what was requested. -/
def IterInput.bounded (i : IterInput) : Prop :=
  Bounded i.stdin_writes ∧ Bounded i.master_writes ∧ Bounded i.drain_writes

/-- Answers of an iteration in which the PTY master gives the bytes `hi` and
standard output takes one byte at a time. -/
def output_hi : IterInput :=
  { idle with sel := .ready false true, master_read := .bytes [104, 105],
              master_writes := fun _ req => .ok (min req 1) }

/-! # Properties -/

/-! ### Properties: `derive_argv0` -/

example : derive_argv0 "libbash.so".toList = "bash".toList := by decide

example : derive_argv0 "/data/app/lib/libbash.so".toList = "bash".toList := by decide

example : derive_argv0 "/system/bin/sh".toList = "/system/bin/sh".toList := by decide

theorem strrchr_of_not_mem (c : Char) : ∀ s : List Char, c ∉ s → strrchr s c = none
  | [], _ => rfl
  | x :: xs, h => by
    have hx : x ≠ c := fun e => h (by simp [e])
    have hxs : c ∉ xs := fun e => h (by simp [e])
    simp [strrchr, strrchr_of_not_mem c xs hxs, hx]

theorem strrchr_append_cons (c : Char) (f : List Char) (hf : c ∉ f) :
    ∀ d : List Char, strrchr (d ++ c :: f) c = some d.length
  | [] => by simp [strrchr, strrchr_of_not_mem c f hf]
  | x :: d => by simp [strrchr, strrchr_append_cons c f hf d]

theorem basename_append (dir file : List Char) (hfile : '/' ∉ file)
    (hdir : dir = [] ∨ dir.getLast? = some '/') : basename (dir ++ file) = file := by
  rcases hdir with rfl | h
  · simp [basename, strrchr_of_not_mem '/' file hfile]
  · obtain ⟨d, rfl⟩ := List.getLast?_eq_some_iff.mp h
    have := strrchr_append_cons '/' file hfile d
    simp only [List.append_assoc, List.singleton_append, basename, this]
    rw [show d.length + 1 = (d ++ ['/']).length by simp,
      show d ++ '/' :: file = (d ++ ['/']) ++ file by simp, List.drop_left]

theorem char_sub_ne_zero {a b : Char} (h : a ≠ b) : (a.toNat : Int) - (b.toNat : Int) ≠ 0 := by
  intro e
  apply h
  apply Char.ext
  apply UInt32.ext  
  have : a.toNat = b.toNat := by omega
  exact this

theorem strncmp_eq_zero_iff :
    ∀ (lit base : List Char), (∀ b ∈ lit, b.toNat ≠ 0) →
      (strncmp base lit lit.length = 0 ↔ lit <+: base)
  | [], base, _ => by simp [strncmp]
  | b :: bs, [], h => by
    have hb : b.toNat ≠ 0 := h b (by simp)
    simp only [List.length_cons, strncmp, List.prefix_nil, reduceCtorEq, iff_false]
    omega
  | b :: bs, a :: as, h => by
    have ih := strncmp_eq_zero_iff bs as (fun c hc => h c (by simp [hc]))
    by_cases e : a = b
    · subst e
      simp only [List.length_cons, strncmp, if_true, ih, List.cons_prefix_cons, true_and]
    · have e2 : ¬ b = a := fun h => e h.symm
      simp only [List.length_cons, strncmp, if_neg e, List.cons_prefix_cons, e2, false_and,
        iff_false]
      exact char_sub_ne_zero e

theorem strncmp_lib (base : List Char) :
    strncmp base "lib".toList 3 = 0 ↔ "lib".toList <+: base :=
  strncmp_eq_zero_iff "lib".toList base (by decide)

theorem strstr_some_split :
    ∀ (hay needle : List Char) (i : Nat), strstr hay needle = some i →
      ∃ pre post, hay = pre ++ needle ++ post ∧ pre.length = i
  | [], needle, i, h => by
    by_cases e : needle = []
    · simp [strstr, e] at h
      exact ⟨[], [], by simp [e], h⟩
    · simp [strstr, e] at h
  | x :: xs, needle, i, h => by
    by_cases e : needle.isPrefixOf (x :: xs) = true
    · simp only [strstr, e, if_true, Option.some.injEq] at h
      obtain ⟨post, hpost⟩ := List.isPrefixOf_iff_prefix.mp e
      exact ⟨[], post, by simp [hpost], h⟩
    · simp only [strstr, e, Bool.false_eq_true, if_false, Option.map_eq_some'] at h
      obtain ⟨j, hj, rfl⟩ := h
      obtain ⟨pre, post, hsplit, hlen⟩ := strstr_some_split xs needle j hj
      exact ⟨x :: pre, post, by simp [hsplit], by simp [hlen]⟩

theorem strstr_ident_so :
    ∀ ident : List Char, ¬ (".so".toList <:+: ident) →
      strstr (ident ++ ".so".toList) ".so".toList = some ident.length
  | [], _ => by decide
  | x :: xs, h => by
    have hxs : ¬ (".so".toList <:+: xs) := fun e => h (List.infix_cons e)
    have ih := strstr_ident_so xs hxs
    have hpre : ¬ (".so".toList.isPrefixOf (x :: (xs ++ ".so".toList)) = true) := by
      rw [List.isPrefixOf_iff_prefix]
      show ¬ (['.', 's', 'o'] <+: x :: (xs ++ ['.', 's', 'o']))
      intro hp
      match xs, h, hp with
      | [], _, hp => simp [List.cons_prefix_cons] at hp
      | [y], _, hp => simp [List.cons_prefix_cons] at hp
      | y :: z :: zs, h, hp =>
        simp only [List.cons_append, List.cons_prefix_cons] at hp
        obtain ⟨rfl, rfl, rfl, _⟩ := hp
        exact h ⟨[], zs, by simp⟩
    show strstr (x :: (xs ++ ".so".toList)) ".so".toList = some (xs.length + 1)
    rw [strstr, if_neg hpre, ih]; rfl

/-- Claim C4, as amended: for every path whose filename is `lib` + identifier + `.so`,
where the identifier is shorter than 64 bytes and contains neither `/` nor the
text `.so`, `derive_argv0` returns exactly the identifier. -/
theorem derive_argv0_wrapped (dir ident : List Char)
    (hdir : dir = [] ∨ dir.getLast? = some '/')
    (hslash : '/' ∉ ident) (hso : ¬ (".so".toList <:+: ident)) (hlen : ident.length < 64) :
    derive_argv0 (dir ++ ("lib".toList ++ ident ++ ".so".toList)) = ident := by
  have hfile : '/' ∉ "lib".toList ++ ident ++ ".so".toList := by
    simp only [List.mem_append, not_or]
    exact ⟨⟨by decide, hslash⟩, by decide⟩
  have hbase := basename_append dir _ hfile hdir
  have hcmp : strncmp ("lib".toList ++ ident ++ ".so".toList) "lib".toList 3 = 0 :=
    (strncmp_lib _).mpr ⟨ident ++ ".so".toList, by simp⟩
  have hdrop : ("lib".toList ++ ident ++ ".so".toList).drop 3 = ident ++ ".so".toList := by
    rw [List.append_assoc]
    exact List.drop_left "lib".toList _
  simp only [derive_argv0, hbase, hcmp, if_true, hdrop, strstr_ident_so ident hso, hlen]
  exact List.take_left ident _

/-- Witness for claim C4: `/data/app/lib/libbash.so` gives `bash`. -/
theorem derive_argv0_wrapped_witness :
    derive_argv0 ("/data/app/lib/".toList ++ ("lib".toList ++ "bash".toList ++ ".so".toList))
      = "bash".toList :=
  derive_argv0_wrapped "/data/app/lib/".toList "bash".toList (by decide) (by decide)
    (by decide) (by decide)

/-- Claim C4 fails as stated: with an identifier of 64 bytes `derive_argv0` returns
the path, not the identifier. -/
theorem derive_argv0_long_identifier :
    derive_argv0 ("lib".toList ++ List.replicate 64 'a' ++ ".so".toList)
      = "lib".toList ++ List.replicate 64 'a' ++ ".so".toList
    ∧ derive_argv0 ("lib".toList ++ List.replicate 64 'a' ++ ".so".toList)
      ≠ List.replicate 64 'a' := by
  decide

/-- Claim C5, as amended: for every path whose filename does not start with `lib`,
or has no `.so` beginning within the first 64 bytes after that start,
`derive_argv0` returns the path unchanged. -/
theorem derive_argv0_unchanged (dir file : List Char)
    (hdir : dir = [] ∨ dir.getLast? = some '/') (hfile : '/' ∉ file)
    (h : ¬ ("lib".toList <+: file) ∨
      ∀ pre : List Char, (pre ++ ".so".toList) <+: file.drop 3 → 64 ≤ pre.length) :
    derive_argv0 (dir ++ file) = dir ++ file := by
  have hbase := basename_append dir file hfile hdir
  simp only [derive_argv0, hbase]
  split
  · next hcmp =>
    rcases h with h | h
    · exact absurd ((strncmp_lib file).mp hcmp) h
    · split
      · next dot hdot =>
        obtain ⟨pre, post, hsplit, hl⟩ := strstr_some_split _ _ _ hdot
        have := h pre ⟨post, hsplit.symm⟩
        have hlt : ¬ dot < 64 := by omega
        simp [hlt]
      · rfl
  · rfl

/-- Witness for claim C5: `/system/bin/sh` is returned unchanged. -/
theorem derive_argv0_unchanged_witness :
    derive_argv0 ("/system/bin/".toList ++ "sh".toList) = "/system/bin/".toList ++ "sh".toList :=
  derive_argv0_unchanged "/system/bin/".toList "sh".toList (by decide) (by decide)
    (Or.inl (by decide))

/-- Claim C5 fails as stated: the filename `libfoo.so.1` does not end in `.so`, yet
`derive_argv0` returns `foo`. -/
theorem derive_argv0_versioned_name :
    ¬ isWrappedLibraryName "libfoo.so.1".toList
    ∧ derive_argv0 "libfoo.so.1".toList = "foo".toList
    ∧ derive_argv0 "libfoo.so.1".toList ≠ "libfoo.so.1".toList := by
  unfold isWrappedLibraryName
  decide

/-! ### Properties: The side-channel path -/

example : size_path none 4242 = "/tmp/.pty-size-4242".toList := by decide

example : size_path (some "/data/user/0/tmp".toList) 17 =
    "/data/user/0/tmp/.pty-size-17".toList := by decide

theorem cstr_g_tmpdir_init : cstr g_tmpdir_init = "/tmp".toList := by decide

theorem cstr_strncpy (t : List Char) (hlen : t.length < 256) (hnul : '\x00' ∉ t) :
    cstr (strncpy g_tmpdir_init t 255) = t := by
  have h1 : (t ++ List.replicate (255 - t.length) '\x00').take 255
      = t ++ List.replicate (255 - t.length) '\x00' :=
    List.take_of_length_le (by simp; omega)
  have h2 : g_tmpdir_init.drop 255 = ['\x00'] := by decide
  have hall : ∀ a ∈ t, (a != '\x00') = true := by
    intro a ha
    simp only [bne_iff_ne, ne_eq]
    rintro rfl
    exact hnul ha
  unfold cstr strncpy
  rw [h1, h2, List.append_assoc, List.takeWhile_append_of_pos hall]
  cases h : 255 - t.length with
  | zero => simp [List.takeWhile]
  | succ k => simp [List.replicate, List.takeWhile]

theorem fmt_d_length (v : Int) (h0 : -(2 ^ 31) ≤ v) (h1 : v < 2 ^ 31) :
    (fmt_d v).length ≤ 11 := by
  unfold fmt_d
  split
  · have := Nat.repr_length v.natAbs 10 (by decide) (by omega)
    simp only [List.length_cons, String.length, String.toList] at this ⊢
    omega
  · have := Nat.repr_length v.toNat 10 (by decide) (by omega)
    simp only [String.length, String.toList] at this ⊢
    omega

theorem cstr_cache_tmpdir (tmpdir : Option (List Char))
    (hnul : ∀ t, tmpdir = some t → '\x00' ∉ t) :
    cstr (cache_tmpdir tmpdir) = chosen_tmpdir tmpdir := by
  cases tmpdir with
  | none => exact cstr_g_tmpdir_init
  | some t =>
    by_cases h : t.length < 256
    · simp only [cache_tmpdir, chosen_tmpdir, h, if_true]
      exact cstr_strncpy t h (hnul t rfl)
    · simp only [cache_tmpdir, chosen_tmpdir, h, if_false]
      exact cstr_g_tmpdir_init

theorem chosen_tmpdir_length (tmpdir : Option (List Char)) :
    (chosen_tmpdir tmpdir).length ≤ 255 := by
  cases tmpdir with
  | none => decide
  | some t =>
    by_cases h : t.length < 256
    · simp only [chosen_tmpdir, h, if_true]; omega
    · simp only [chosen_tmpdir, h, if_false]; decide

/-- Claim C6: for every process id (a 32-bit `int`) and every value of the
temporary-directory variable, the side-channel path is exactly
`<temp-dir>/.pty-size-<pid>`, the pid in decimal and nothing cut off, where
`<temp-dir>` is the value of the variable when it is present and shorter than
256 bytes and `/tmp` otherwise. -/
theorem size_path_exact (tmpdir : Option (List Char)) (pid : Int)
    (hnul : ∀ t, tmpdir = some t → '\x00' ∉ t)
    (h0 : -(2 ^ 31) ≤ pid) (h1 : pid < 2 ^ 31) :
    size_path tmpdir pid = chosen_tmpdir tmpdir ++ "/.pty-size-".toList ++ fmt_d pid := by
  unfold size_path snprintf_size_path
  rw [cstr_cache_tmpdir tmpdir hnul]
  apply List.take_of_length_le
  have hd := chosen_tmpdir_length tmpdir
  have hp := fmt_d_length pid h0 h1
  have hl : "/.pty-size-".toList.length = 11 := by decide
  simp only [List.length_append, hl]
  omega

/-- Witness for claim C6: directory `/data/user/0/tmp`, process id 4242. -/
theorem size_path_exact_witness :
    size_path (some "/data/user/0/tmp".toList) 4242
      = chosen_tmpdir (some "/data/user/0/tmp".toList) ++ "/.pty-size-".toList ++ fmt_d 4242 :=
  size_path_exact (some "/data/user/0/tmp".toList) 4242
    (fun t e => by cases e; decide) (by decide) (by decide)

/-! ### Properties: `handle_sigwinch` -/

example : payload 100 40 = bytesOf "100 40" := by decide

example : handle_sigwinch 3 100 (.content (bytesOf "100 40")) = ⟨true, some ⟨40, 100⟩⟩ := by decide

example : handle_sigwinch 3 100 (.content (bytesOf "abc")) = ⟨true, none⟩ := by decide

example : handle_sigwinch 3 100 (.content (bytesOf "100")) = ⟨true, none⟩ := by decide

example : handle_sigwinch 3 100 (.content (bytesOf "100 40abc")) = ⟨true, some ⟨40, 100⟩⟩ := by decide

example : handle_sigwinch 3 100 (.content (payload 65536 24)) = ⟨true, some ⟨24, 0⟩⟩ := by decide

theorem digitChar_toNat (d : Nat) (h : d < 10) : (Nat.digitChar d).toNat = 48 + d := by
  interval_cases d <;> rfl

theorem wrapInt_of_lt (x : Int) (h0 : 0 ≤ x) (h1 : x < 2 ^ 31) : wrapInt x = x := by
  unfold wrapInt; omega

theorem scanInt_toDigitsCore (rest : List Nat) :
    ∀ (fuel n : Nat) (ds : List Char), n < fuel → n < 2 ^ 31 →
      scanInt 0 ((Nat.toDigitsCore 10 fuel n ds).map Char.toNat ++ rest)
        = scanInt n (ds.map Char.toNat ++ rest)
  | 0, n, ds, h, _ => by omega
  | fuel + 1, n, ds, h, hn => by
    have hd : (Nat.digitChar (n % 10)).toNat = 48 + n % 10 :=
      digitChar_toNat _ (Nat.mod_lt _ (by decide))
    have hdig : isDigit (48 + n % 10) = true := by
      simp only [isDigit, Bool.and_eq_true, decide_eq_true_eq]; omega
    by_cases h0 : n / 10 = 0
    · simp only [Nat.toDigitsCore, h0, if_true, List.map_cons, List.cons_append, scanInt, hd,
        hdig]
      congr 1
      rw [wrapInt_of_lt] <;> push_cast <;> omega
    · simp only [Nat.toDigitsCore, h0, if_false]
      rw [scanInt_toDigitsCore rest fuel (n / 10) _ (by omega) (by omega)]
      simp only [List.map_cons, List.cons_append, scanInt, hd, hdig, if_true]
      congr 1
      rw [wrapInt_of_lt] <;> push_cast <;> omega

theorem toDigitsCore_head (fuel n : Nat) (ds : List Char) :
    ∀ (_ : 0 < fuel ∨ ∃ d tl, ds = d :: tl ∧ isDigit d.toNat = true),
      ∃ d tl, Nat.toDigitsCore 10 fuel n ds = d :: tl ∧ isDigit d.toNat = true := by
  induction fuel generalizing n ds with
  | zero =>
    intro h
    rcases h with h | h
    · omega
    · simpa [Nat.toDigitsCore] using h
  | succ fuel ih =>
    intro _
    have hd : (Nat.digitChar (n % 10)).toNat = 48 + n % 10 :=
      digitChar_toNat _ (Nat.mod_lt _ (by decide))
    have hdig : isDigit (Nat.digitChar (n % 10)).toNat = true := by
      rw [hd]; simp only [isDigit, Bool.and_eq_true, decide_eq_true_eq]; omega
    by_cases h0 : n / 10 = 0
    · exact ⟨_, ds, by simp [Nat.toDigitsCore, h0], hdig⟩
    · simp only [Nat.toDigitsCore, h0, if_false]
      exact ih (n / 10) _ (Or.inr ⟨_, ds, rfl, hdig⟩)

theorem decimal_eq (n : Nat) :
    decimal n = (Nat.toDigitsCore 10 (n + 1) n []).map Char.toNat := rfl

theorem decimal_head (n : Nat) : ∃ d tl, decimal n = d :: tl ∧ isDigit d = true := by
  obtain ⟨d, tl, h, hd⟩ := toDigitsCore_head (n + 1) n [] (Or.inl (by omega))
  refine ⟨d.toNat, tl.map Char.toNat, ?_, hd⟩
  rw [decimal_eq, h]; rfl

theorem decimal_length (n : Nat) (h : n < 10 ^ 5) : (decimal n).length ≤ 5 := by
  have := Nat.repr_length n 5 (by decide) h
  rw [decimal_eq, List.length_map]
  exact this

theorem scanInt_decimal (n : Nat) (hn : n < 2 ^ 31) (rest : List Nat) :
    scanInt 0 (decimal n ++ rest) = scanInt n rest := by
  have := scanInt_toDigitsCore rest (n + 1) n [] (by omega) hn
  rw [decimal_eq]
  exact this

theorem skipBlanks_of_digit (b : Nat) (bs : List Nat) (h : isDigit b = true) :
    skipBlanks (b :: bs) = b :: bs := by
  have : isBlank b = false := by
    simp only [isDigit, Bool.and_eq_true, decide_eq_true_eq] at h
    simp only [isBlank, Bool.or_eq_false_iff, beq_eq_false_iff_ne, ne_eq]
    omega
  simp [skipBlanks, this]

theorem skipBlanks_decimal (n : Nat) (rest : List Nat) :
    skipBlanks (decimal n ++ rest) = decimal n ++ rest := by
  obtain ⟨d, tl, h, hd⟩ := decimal_head n
  rw [h]
  exact skipBlanks_of_digit d _ hd

/-- Claim C2, as amended: for `cols` and `rows` from 1 to 65535, when the file holds
the ASCII-decimal text `<cols> <rows>` and the master descriptor and child pid
are set, the window size applied has exactly `cols` columns and `rows` rows. -/
theorem handle_sigwinch_payload (g_master_fd g_child_pid : Int) (cols rows : Nat)
    (hfd : 0 ≤ g_master_fd) (hpid : 0 < g_child_pid)
    (hc : 0 < cols) (hc' : cols ≤ 65535) (hr : 0 < rows) (hr' : rows ≤ 65535) :
    (handle_sigwinch g_master_fd g_child_pid (.content (payload cols rows))).applied
      = some ⟨rows, cols⟩ := by
  have hlc := decimal_length cols (by omega)
  have hlr := decimal_length rows (by omega)
  obtain ⟨d, tl, hhead, _⟩ := decimal_head cols
  have hlen : (payload cols rows).length ≤ 31 := by
    simp only [payload, List.length_append, List.length_singleton]; omega
  have hpos : (payload cols rows).length ≠ 0 := by
    simp [payload, hhead]
  have hguard : ¬ (g_master_fd < 0 ∨ g_child_pid ≤ 0) := by omega
  have hbuf : payload cols rows ++ [0] = decimal cols ++ (32 :: (decimal rows ++ [0])) := by
    simp [payload]
  have h1 : scanInt 0 (decimal cols ++ (32 :: (decimal rows ++ [0])))
      = ((cols : Int), 32 :: (decimal rows ++ [0])) := by
    rw [scanInt_decimal cols (by omega)]; rfl
  have h2 : skipBlanks (32 :: (decimal rows ++ [0])) = decimal rows ++ [0] := by
    rw [skipBlanks]; simp only [isBlank, beq_self_eq_true, Bool.true_or, if_true]
    exact skipBlanks_decimal rows [0]
  have h3 : scanInt 0 (decimal rows ++ [0]) = ((rows : Int), [0]) := by
    rw [scanInt_decimal rows (by omega)]; rfl
  have hcond : ((cols : Int) > 0 ∧ (rows : Int) > 0) := by omega
  simp only [handle_sigwinch, hguard, if_false, List.take_of_length_le hlen, hpos, hbuf,
    skipBlanks_decimal, h1, h2, h3, hcond, and_self, if_true, Option.some.injEq,
    Winsize.mk.injEq]
  omega

/-- Witness for claim C2: the text `100 40` resizes to 100 columns and 40 rows. -/
theorem handle_sigwinch_payload_witness :
    (handle_sigwinch 3 100 (.content (payload 100 40))).applied = some ⟨40, 100⟩ :=
  handle_sigwinch_payload 3 100 100 40 (by decide) (by decide) (by decide) (by decide)
    (by decide) (by decide)

/-- Claim C2 fails as stated: for 65536 columns the 16-bit field of the window size
receives 0. -/
theorem handle_sigwinch_wide_payload :
    (handle_sigwinch 3 100 (.content (payload 65536 24))).applied = some ⟨24, 0⟩
    ∧ (handle_sigwinch 3 100 (.content (payload 65536 24))).applied ≠ some ⟨24, 65536⟩ := by
  decide

example : isSizePayload (bytesOf "100 40") = true := by decide

example : isSizePayload (bytesOf "100 40abc") = false := by decide

example : beginsWithTwoNumbers (bytesOf "100 40abc") = true := by decide

example : beginsWithTwoNumbers (bytesOf "100") = false := by decide

theorem skipBlanks_eq_dropWhile : ∀ l : List Nat, skipBlanks l = l.dropWhile isBlank
  | [] => rfl
  | b :: bs => by
    by_cases h : isBlank b = true
    · simp [skipBlanks, List.dropWhile, h, skipBlanks_eq_dropWhile bs]
    · simp [skipBlanks, List.dropWhile, h]

theorem scanInt_snd : ∀ (acc : Int) (l : List Nat), (scanInt acc l).2 = l.dropWhile isDigit
  | _, [] => rfl
  | acc, b :: bs => by
    by_cases h : isDigit b = true
    · simp [scanInt, List.dropWhile, h, scanInt_snd _ bs]
    · simp [scanInt, List.dropWhile, h]

theorem scanInt_fst_of_no_digit (l : List Nat) (h : l.takeWhile isDigit = []) :
    (scanInt 0 l).1 = 0 := by
  cases l with
  | nil => rfl
  | cons b bs =>
    by_cases hb : isDigit b = true
    · simp [List.takeWhile, hb] at h
    · simp [scanInt, hb]

theorem takeWhile_append_nul (p : Nat → Bool) (hp : p 0 = false) :
    ∀ l : List Nat, (l ++ [0]).takeWhile p = l.takeWhile p
  | [] => by simp [List.takeWhile, hp]
  | b :: bs => by
    by_cases h : p b = true
    · simp [List.takeWhile, h, takeWhile_append_nul p hp bs]
    · simp [List.takeWhile, h]

theorem dropWhile_append_nul (p : Nat → Bool) (hp : p 0 = false) :
    ∀ l : List Nat, (l ++ [0]).dropWhile p = l.dropWhile p ++ [0]
  | [] => by simp [List.dropWhile, hp]
  | b :: bs => by
    by_cases h : p b = true
    · simp [List.dropWhile, h, dropWhile_append_nul p hp bs]
    · simp [List.dropWhile, h]

theorem takeWhile_dropWhile_self (p : Nat → Bool) :
    ∀ l : List Nat, (l.dropWhile p).takeWhile p = []
  | [] => rfl
  | b :: bs => by
    by_cases h : p b = true
    · simp [List.dropWhile, h, takeWhile_dropWhile_self p bs]
    · simp [List.dropWhile, List.takeWhile, h]

theorem dropWhile_of_takeWhile_nil (p : Nat → Bool) (l : List Nat)
    (h : l.takeWhile p = []) : l.dropWhile p = l := by
  cases l with
  | nil => rfl
  | cons b bs =>
    by_cases hb : p b = true
    · simp [List.takeWhile, hb] at h
    · simp [List.dropWhile, hb]

example : write_all 5 (fun _ _ => .ok 2) 0 [1, 2, 3] 3 = ⟨4, 0, 2, [1, 2, 3], true⟩ := by decide

example : write_all 5 (fun i _ => if i = 0 then .ok 1 else .err EAGAIN) 0 [1, 2, 3] 3
    = ⟨1, 11, 2, [1], true⟩ := by decide

theorem write_all_loop_returned_of_le (w : WriteOracle) (buf : List Nat) (len fuel : Nat)
    (st : WriteAll) (h : len ≤ st.written) :
    write_all_loop w buf len fuel st = { st with returned := true } := by
  unfold write_all_loop
  simp [Nat.not_lt.mpr h]

theorem write_all_loop_returns (w : WriteOracle) (buf : List Nat) (len K : Nat)
    (hK : ∀ i req, K ≤ i → 0 < req → (w i req).stalls = false) :
    ∀ (fuel : Nat) (st : WriteAll), (K - st.calls) + (len - st.written) ≤ fuel →
      (write_all_loop w buf len fuel st).returned = true
        ∧ (write_all_loop w buf len fuel st).calls ≤ st.calls + fuel
  | 0, st, h => by
    rw [write_all_loop_returned_of_le w buf len 0 st (by omega)]
    exact ⟨rfl, by simp⟩
  | fuel + 1, st, h => by
    by_cases hlt : st.written < len
    · unfold write_all_loop
      simp only [hlt, if_true]
      cases hw : w st.calls (len - st.written) with
      | err e =>
        simp only
        by_cases he : e = EINTR
        · simp only [he, if_true]
          have hstall : K ≤ st.calls → False := fun hk => by
            have := hK st.calls (len - st.written) hk (by omega)
            simp [hw, WriteResult.stalls, he] at this
          have := write_all_loop_returns w buf len K hK fuel
            { st with errno := EINTR, calls := st.calls + 1 }
            (by simp only; by_cases hk : K ≤ st.calls
                · exact absurd hk hstall
                · omega)
          exact ⟨this.1, by have := this.2; simp only at this; omega⟩
        · simp only [he, if_false]
          split <;> exact ⟨rfl, by simp only; omega⟩
      | ok n =>
        simp only
        have hn : K ≤ st.calls → 0 < n := fun hk => by
          have := hK st.calls (len - st.written) hk (by omega)
          simp [hw, WriteResult.stalls] at this
          omega
        have := write_all_loop_returns w buf len K hK fuel
          { st with calls := st.calls + 1, written := st.written + n,
                    delivered := st.delivered ++ (buf.drop st.written).take n }
          (by simp only; by_cases hk : K ≤ st.calls
              · have := hn hk; omega
              · omega)
        exact ⟨this.1, by have := this.2; simp only at this; omega⟩
    · rw [write_all_loop_returned_of_le w buf len _ st (by omega)]
      exact ⟨rfl, by simp⟩

theorem write_all_loop_stalled (w : WriteOracle) (buf : List Nat) (len : Nat)
    (hw : ∀ i req, (w i req) = .err EINTR ∨ (w i req) = .ok 0) :
    ∀ (fuel : Nat) (st : WriteAll), st.written < len → st.returned = false →
      (write_all_loop w buf len fuel st).returned = false
  | 0, st, h, hr => by
    unfold write_all_loop
    simp [h, hr]
  | fuel + 1, st, h, hr => by
    unfold write_all_loop
    simp only [h, if_true]
    rcases hw st.calls (len - st.written) with e | e
    · rw [e]
      simp only [if_true]
      exact write_all_loop_stalled w buf len hw fuel _ h hr
    · rw [e]
      simp only
      exact write_all_loop_stalled w buf len hw fuel _ (by simpa using h) hr

theorem write_all_loop_taken (w : WriteOracle) (chunk stale : List Nat)
    (hle : ∀ i req n, w i req = .ok n → n ≤ req) :
    ∀ (fuel : Nat) (st : WriteAll),
      st.written ≤ chunk.length → st.delivered = chunk.take st.written →
      (write_all_loop w (chunk ++ stale) chunk.length fuel st).written ≤ chunk.length
        ∧ (write_all_loop w (chunk ++ stale) chunk.length fuel st).delivered
            = chunk.take (write_all_loop w (chunk ++ stale) chunk.length fuel st).written
  | 0, st, h1, h2 => by
    unfold write_all_loop
    split <;> exact ⟨h1, h2⟩
  | fuel + 1, st, h1, h2 => by
    unfold write_all_loop
    split
    · next hlt =>
      simp only
      cases hw : w st.calls (chunk.length - st.written) with
      | err e =>
        simp only
        split
        · exact write_all_loop_taken w chunk stale hle fuel _ h1 h2
        · split <;> exact ⟨h1, h2⟩
      | ok n =>
        simp only
        have hn := hle _ _ _ hw
        apply write_all_loop_taken w chunk stale hle fuel _ (by simp only; omega)
        simp only
        rw [h2, List.drop_append_of_le_length (by omega),
          List.take_append_of_le_length (by simp; omega), List.take_add]
    · exact ⟨h1, h2⟩

theorem write_all_loop_complete (w : WriteOracle) (buf : List Nat) (len : Nat)
    (hok : ∀ i req e, 0 < req → w i req ≠ .err e) :
    ∀ (fuel : Nat) (st : WriteAll), st.returned = false →
      (write_all_loop w buf len fuel st).returned = true →
      len ≤ (write_all_loop w buf len fuel st).written
  | 0, st, h1, h2 => by
    unfold write_all_loop at h2 ⊢
    split
    · next hlt => simp [hlt, h1] at h2
    · simp only; omega
  | fuel + 1, st, h1, h2 => by
    unfold write_all_loop at h2 ⊢
    split
    · next hlt =>
      simp only [hlt, if_true] at h2
      cases hw : w st.calls (len - st.written) with
      | err e => exact absurd hw (hok _ _ e (by omega))
      | ok n =>
        rw [hw] at h2
        exact write_all_loop_complete w buf len hok fuel _ h1 h2
    · simp only; omega

example : main_return (relay_loop 8
    [idle, { idle with wait := .reaped (status_exited 3) },
     { idle with drain_read := .err EIO }] (relay_start 0 [])) = some 3 := by decide

example : main_return (relay_loop 8
    [{ idle with wait := .reaped (status_signaled 9 false) },
     { idle with drain_read := .err EIO }] (relay_start 0 [])) = some 137 := by decide

example : main_return (relay_loop 8
    [{ idle with sel := .ready false true, master_read := .err EIO,
                 wait := .reaped (status_exited 3) }] (relay_start 0 [])) = some 0 := by decide

theorem Frozen.refl (s : Relay) : Frozen s s := ⟨rfl, rfl, rfl⟩

theorem Frozen.trans {a b c : Relay} (h1 : Frozen a b) (h2 : Frozen b c) : Frozen a c :=
  ⟨h2.1.trans h1.1, h2.2.1.trans h1.2.1, h2.2.2.trans h1.2.2⟩

theorem relay_to_master_frozen (fuel : Nat) (w : WriteOracle) (bs : List Nat) (s : Relay) :
    Frozen s (relay_to_master fuel w bs s).state := by
  unfold relay_to_master
  simp only
  split <;> exact ⟨rfl, rfl, rfl⟩

theorem relay_to_stdout_frozen (fuel : Nat) (w : WriteOracle) (bs : List Nat) (s : Relay) :
    Frozen s (relay_to_stdout fuel w bs s).state := by
  unfold relay_to_stdout
  simp only
  split <;> exact ⟨rfl, rfl, rfl⟩

theorem stdin_stage_frozen (fuel : Nat) (i : IterInput) (isset : Bool) (s : Relay) :
    Frozen s (stdin_stage fuel i isset s).state := by
  unfold stdin_stage
  split
  · split
    · exact ⟨rfl, rfl, rfl⟩
    · split
      · exact relay_to_master_frozen _ _ _ _
      · exact Frozen.refl s
  · exact Frozen.refl s

theorem master_stage_frozen (fuel : Nat) (i : IterInput) (isset : Bool) (s : Relay) :
    Frozen s (master_stage fuel i isset s).state := by
  unfold master_stage
  split
  · split
    · split <;> exact ⟨rfl, rfl, rfl⟩
    · split
      · exact relay_to_stdout_frozen _ _ _ _
      · split <;> exact Frozen.refl s
  · exact Frozen.refl s

theorem exit_stage_frozen (fuel : Nat) (i : IterInput) (s : Relay)
    (h : s.child_exited = true) : Frozen s (exit_stage fuel i s).state := by
  unfold exit_stage
  split
  · next hc => simp [h] at hc
  · split
    · split <;> exact ⟨rfl, rfl, rfl⟩
    · split
      · exact relay_to_stdout_frozen _ _ _ _
      · split <;> exact Frozen.refl s

theorem andThen_state (P : Relay → Prop) (st : Step) (f : Relay → Step)
    (h1 : P st.state) (h2 : ∀ s, st = .next s → P (f s).state) : P (st.andThen f).state := by
  cases st with
  | next s => exact h2 s rfl
  | done s => exact h1
  | hung s => exact h1

theorem relay_iteration_frozen (fuel : Nat) (s : Relay) (i : IterInput)
    (h : s.child_exited = true) : Frozen s (relay_iteration fuel s i).state := by
  unfold relay_iteration
  cases i.sel with
  | err e =>
    simp only
    split <;> exact ⟨rfl, rfl, rfl⟩
  | ready rin rmaster =>
    simp only
    have h1 := stdin_stage_frozen fuel i (!s.child_exited && rin) s
    apply andThen_state (Frozen s) _ _ h1
    intro s1 e1
    rw [e1] at h1
    have h2 := master_stage_frozen fuel i rmaster s1
    apply andThen_state (Frozen s) _ _ (h1.trans h2)
    intro s2 e2
    rw [e2] at h2
    have h12 : Frozen s s2 := h1.trans h2
    exact h12.trans (exit_stage_frozen fuel i s2 (h12.1.trans h))

theorem relay_loop_frozen (fuel : Nat) :
    ∀ (inputs : List IterInput) (s : Relay), s.child_exited = true →
      Frozen s (relay_loop fuel inputs s).state
  | [], s, _ => Frozen.refl s
  | i :: rest, s, h => by
    have h1 := relay_iteration_frozen fuel s i h
    unfold relay_loop
    cases hs : relay_iteration fuel s i with
    | next s' =>
      rw [hs] at h1
      exact h1.trans (relay_loop_frozen fuel rest s' (h1.1.trans h))
    | done s' => rw [hs] at h1; exact h1
    | hung s' => rw [hs] at h1; exact h1

theorem relay_iteration_detects (fuel : Nat) (s : Relay) (i : IterInput) (status : Nat)
    (hrun : s.child_exited = false) (hwait : i.wait = .reaped status)
    (hreach : (relay_iteration fuel s i).state.wait_calls = s.wait_calls + 1) :
    ∃ s', relay_iteration fuel s i = .next s' ∧ s'.child_exited = true
      ∧ s'.exit_status = record_status status s.exit_status
      ∧ s'.wait_calls = s.wait_calls + 1 := by
  unfold relay_iteration at hreach ⊢
  cases hsel : i.sel with
  | err e =>
    rw [hsel] at hreach
    simp only at hreach
    split at hreach <;> simp [Step.state] at hreach
  | ready rin rmaster =>
    rw [hsel] at hreach
    simp only at hreach ⊢
    have h1 := stdin_stage_frozen fuel i (!s.child_exited && rin) s
    cases e1 : stdin_stage fuel i (!s.child_exited && rin) s with
    | done s1 =>
      rw [e1] at h1 hreach
      simp only [Step.andThen, Step.state] at h1 hreach
      have := h1.2.2; omega
    | hung s1 =>
      rw [e1] at h1 hreach
      simp only [Step.andThen, Step.state] at h1 hreach
      have := h1.2.2; omega
    | next s1 =>
      rw [e1] at h1 hreach
      simp only [Step.andThen, Step.state] at h1 hreach ⊢
      have h2 := master_stage_frozen fuel i rmaster s1
      cases e2 : master_stage fuel i rmaster s1 with
      | done s2 =>
        rw [e2] at h2 hreach
        simp only [Step.andThen, Step.state] at h2 hreach
        have := h1.2.2; have := h2.2.2; omega
      | hung s2 =>
        rw [e2] at h2 hreach
        simp only [Step.andThen, Step.state] at h2 hreach
        have := h1.2.2; have := h2.2.2; omega
      | next s2 =>
        rw [e2] at h2
        simp only [Step.state] at h2
        have h12 : Frozen s s2 := h1.trans h2
        have hce : s2.child_exited = false := h12.1.trans hrun
        simp only [exit_stage, hce, Bool.not_false, if_true, hwait]
        exact ⟨_, rfl, rfl, by simp only [h12.2.1], by simp only [h12.2.2]⟩

theorem record_status_exited (N : Nat) (old : Int) (h : N ≤ 255) :
    record_status (status_exited N) old = N := by
  have h1 : WIFEXITED (status_exited N) = true := by
    simp [WIFEXITED, WTERMSIG, status_exited]; omega
  have h2 : WEXITSTATUS (status_exited N) = N := by
    simp only [WEXITSTATUS, status_exited]; omega
  simp [record_status, h1, h2]

theorem record_status_signaled (S : Nat) (core : Bool) (old : Int) (h1 : 1 ≤ S) (h2 : S ≤ 126) :
    record_status (status_signaled S core) old = 128 + S := by
  have e1 : WIFEXITED (status_signaled S core) = false := by
    cases core <;> simp [WIFEXITED, WTERMSIG, status_signaled] <;> omega
  have e2 : WIFSIGNALED (status_signaled S core) = true := by
    cases core <;> simp [WIFSIGNALED, WTERMSIG, status_signaled] <;> omega
  have e3 : WTERMSIG (status_signaled S core) = S := by
    cases core <;> simp [WTERMSIG, status_signaled] <;> omega
  simp [record_status, e1, e2, e3]

theorem main_return_state (r : Step) (v : Int) (h : main_return r = some v) :
    v = r.state.exit_status := by
  cases r with
  | next s => simp [main_return] at h
  | done s => simp [main_return] at h; exact h.symm
  | hung s => simp [main_return] at h

/-- Claim C10: from a `RUNNING` state, the iteration whose `waitpid` returns the
child goes on round the loop with the flag set and the derived status recorded
(`N` for `exit(N)`, `128 + S` for a kill by signal `S`); after any later
iterations the flag is still set, the status is the recorded one, no further
`waitpid` call was made, and the value `main` returns is the recorded status. -/
theorem lifecycle_forward (fuel : Nat) (s : Relay) (i : IterInput) (later : List IterInput)
    (status : Nat) (hrun : s.child_exited = false) (hwait : i.wait = .reaped status)
    (hreach : (relay_iteration fuel s i).state.wait_calls = s.wait_calls + 1) :
    ∃ s', relay_iteration fuel s i = .next s'
      ∧ s'.child_exited = true
      ∧ s'.exit_status = record_status status s.exit_status
      ∧ (∀ N, N ≤ 255 → status = status_exited N → s'.exit_status = N)
      ∧ (∀ S core, 1 ≤ S → S ≤ 126 → status = status_signaled S core →
          s'.exit_status = 128 + S)
      ∧ (relay_loop fuel later s').state.child_exited = true
      ∧ (relay_loop fuel later s').state.exit_status = s'.exit_status
      ∧ (relay_loop fuel later s').state.wait_calls = s'.wait_calls
      ∧ (∀ v, main_return (relay_loop fuel later s') = some v → v = s'.exit_status) := by
  obtain ⟨s', hstep, hflag, hstat, _⟩ := relay_iteration_detects fuel s i status hrun hwait hreach
  have hfr := relay_loop_frozen fuel later s' hflag
  refine ⟨s', hstep, hflag, hstat, ?_, ?_, hfr.1.trans hflag, hfr.2.1, hfr.2.2, ?_⟩
  · intro N hN e
    rw [hstat, e, record_status_exited N _ hN]
  · intro S core h1 h2 e
    rw [hstat, e, record_status_signaled S core _ h1 h2]
  · intro v hv
    rw [main_return_state _ v hv, hfr.2.1]

theorem lifecycle_forward_witness :
    ∃ s', relay_iteration 8 (relay_start 0 []) child_exit_3 = .next s'
      ∧ s'.child_exited = true
      ∧ s'.exit_status = record_status (status_exited 3) (relay_start 0 []).exit_status
      ∧ (∀ N, N ≤ 255 → status_exited 3 = status_exited N → s'.exit_status = N)
      ∧ (∀ S core, 1 ≤ S → S ≤ 126 → status_exited 3 = status_signaled S core →
          s'.exit_status = 128 + S)
      ∧ (relay_loop 8 [drain_would_block, drain_eio] s').state.child_exited = true
      ∧ (relay_loop 8 [drain_would_block, drain_eio] s').state.exit_status = s'.exit_status
      ∧ (relay_loop 8 [drain_would_block, drain_eio] s').state.wait_calls = s'.wait_calls
      ∧ (∀ v, main_return (relay_loop 8 [drain_would_block, drain_eio] s') = some v →
          v = s'.exit_status) :=
  lifecycle_forward 8 (relay_start 0 []) child_exit_3 [drain_would_block, drain_eio]
    (status_exited 3) rfl rfl (by decide)

/-- Claim C1 fails on the code: the child called `exit(3)`, the read of the PTY
master fails with `EIO` before any `waitpid` call, the loop is left at once and
`main` returns 0. -/
theorem main_loses_exit_status :
    main_return (relay_loop 8 [hangup_exit_3] (relay_start 0 [])) = some 0
      ∧ (relay_loop 8 [hangup_exit_3] (relay_start 0 [])).state.wait_calls = 0
      ∧ record_status (status_exited 3) 0 = 3 := by
  decide

/-- Claim C7 fails on the code: a read of the PTY master that returns 0 bytes
does not end the loop when `errno` still holds `EAGAIN` from an earlier call,
in the draining state (after a would-block read) and in the running state
(after a would-block write); with `errno` clear the same read ends the loop. -/
theorem eof_with_stale_errno_keeps_looping :
    (∃ s', relay_loop 8 [child_exit_3, drain_would_block, drain_eof] (relay_start 0 [])
        = .next s' ∧ s'.child_exited = true)
      ∧ (∃ s', relay_loop 8 [backpressure_then_eof] (relay_start 0 []) = .next s'
          ∧ s'.child_exited = false)
      ∧ main_return (relay_loop 8 [child_exit_3, drain_eof] (relay_start 0 [])) = some 3 := by
  refine ⟨⟨_, rfl, rfl⟩, ⟨_, rfl, rfl⟩, by decide⟩

theorem write_all_delivered_initial (fuel : Nat) (w : WriteOracle) (errno : Int)
    (chunk stale : List Nat) (hle : Bounded w) :
    (write_all fuel w errno (chunk ++ stale) chunk.length).delivered <+: chunk := by
  have := write_all_loop_taken w chunk stale hle fuel ⟨0, errno, 0, [], false⟩
    (Nat.zero_le _) rfl
  rw [write_all, this.2]
  exact List.take_prefix _ _

theorem forall₂_snoc {ps cs : List (List Nat)} {p c : List Nat}
    (h : List.Forall₂ (· <+: ·) ps cs) (hp : p <+: c) :
    List.Forall₂ (· <+: ·) (ps ++ [p]) (cs ++ [c]) :=
  List.rel_append h (List.Forall₂.cons hp List.Forall₂.nil)

theorem relay_to_stdout_inOrder (fuel : Nat) (w : WriteOracle) (bs : List Nat) (s : Relay)
    (hw : Bounded w) (h : InOrder s) : InOrder (relay_to_stdout fuel w bs s).state := by
  obtain ⟨⟨ps, hps, hout⟩, hin⟩ := h
  have hd := write_all_delivered_initial fuel w s.errno bs (s.buf.drop bs.length) hw
  have key : InOrder { s with
      buf := bs ++ s.buf.drop bs.length
      errno := (write_all fuel w s.errno (bs ++ s.buf.drop bs.length) bs.length).errno
      master_chunks := s.master_chunks ++ [bs]
      to_stdout := s.to_stdout ++
        (write_all fuel w s.errno (bs ++ s.buf.drop bs.length) bs.length).delivered } :=
    ⟨⟨ps ++ [_], forall₂_snoc hps hd, by simp [hout]⟩, hin⟩
  unfold relay_to_stdout
  simp only
  split <;> exact key

theorem relay_to_master_inOrder (fuel : Nat) (w : WriteOracle) (bs : List Nat) (s : Relay)
    (hw : Bounded w) (h : InOrder s) : InOrder (relay_to_master fuel w bs s).state := by
  obtain ⟨hout, ⟨qs, hqs, hin⟩⟩ := h
  have hd := write_all_delivered_initial fuel w s.errno bs (s.buf.drop bs.length) hw
  have key : InOrder { s with
      buf := bs ++ s.buf.drop bs.length
      errno := (write_all fuel w s.errno (bs ++ s.buf.drop bs.length) bs.length).errno
      stdin_chunks := s.stdin_chunks ++ [bs]
      to_master := s.to_master ++
        (write_all fuel w s.errno (bs ++ s.buf.drop bs.length) bs.length).delivered } :=
    ⟨hout, ⟨qs ++ [_], forall₂_snoc hqs hd, by simp [hin]⟩⟩
  unfold relay_to_master
  simp only
  split <;> exact key

theorem stdin_stage_inOrder (fuel : Nat) (i : IterInput) (isset : Bool) (s : Relay)
    (hw : Bounded i.stdin_writes) (h : InOrder s) :
    InOrder (stdin_stage fuel i isset s).state := by
  unfold stdin_stage
  split
  · split
    · exact h
    · split
      · exact relay_to_master_inOrder _ _ _ _ hw h
      · exact h
  · exact h

theorem master_stage_inOrder (fuel : Nat) (i : IterInput) (isset : Bool) (s : Relay)
    (hw : Bounded i.master_writes) (h : InOrder s) :
    InOrder (master_stage fuel i isset s).state := by
  unfold master_stage
  split
  · split
    · split <;> exact h
    · split
      · exact relay_to_stdout_inOrder _ _ _ _ hw h
      · split <;> exact h
  · exact h

theorem exit_stage_inOrder (fuel : Nat) (i : IterInput) (s : Relay)
    (hw : Bounded i.drain_writes) (h : InOrder s) : InOrder (exit_stage fuel i s).state := by
  unfold exit_stage
  split
  · split <;> exact h
  · split
    · split <;> exact h
    · split
      · exact relay_to_stdout_inOrder _ _ _ _ hw h
      · split <;> exact h

theorem relay_iteration_inOrder (fuel : Nat) (s : Relay) (i : IterInput)
    (hw : i.bounded) (h : InOrder s) : InOrder (relay_iteration fuel s i).state := by
  unfold relay_iteration
  cases i.sel with
  | err e =>
    simp only
    split <;> exact h
  | ready rin rmaster =>
    simp only
    apply andThen_state InOrder _ _ (stdin_stage_inOrder fuel i _ s hw.1 h)
    intro s1 e1
    have h1 : InOrder s1 := by
      have := stdin_stage_inOrder fuel i (!s.child_exited && rin) s hw.1 h
      rw [e1] at this; exact this
    apply andThen_state InOrder _ _ (master_stage_inOrder fuel i _ s1 hw.2.1 h1)
    intro s2 e2
    have h2 : InOrder s2 := by
      have := master_stage_inOrder fuel i rmaster s1 hw.2.1 h1
      rw [e2] at this; exact this
    exact exit_stage_inOrder fuel i s2 hw.2.2 h2

theorem relay_loop_inOrder (fuel : Nat) :
    ∀ (inputs : List IterInput) (s : Relay), (∀ i ∈ inputs, i.bounded) → InOrder s →
      InOrder (relay_loop fuel inputs s).state
  | [], _, _, h => h
  | i :: rest, s, hw, h => by
    have h1 := relay_iteration_inOrder fuel s i (hw i (by simp)) h
    unfold relay_loop
    cases hs : relay_iteration fuel s i with
    | next s' =>
      rw [hs] at h1
      exact relay_loop_inOrder fuel rest s' (fun j hj => hw j (by simp [hj])) h1
    | done s' => rw [hs] at h1; exact h1
    | hung s' => rw [hs] at h1; exact h1

theorem write_all_loop_zero (buf : List Nat) (len : Nat) :
    ∀ (fuel : Nat) (st : WriteAll), st.written < len →
      (write_all_loop (fun _ _ => .ok 0) buf len fuel st).delivered = st.delivered
        ∧ (write_all_loop (fun _ _ => .ok 0) buf len fuel st).returned = st.returned
  | 0, st, h => by
    unfold write_all_loop
    simp [h]
  | fuel + 1, st, h => by
    unfold write_all_loop
    simp only [h, if_true]
    have := write_all_loop_zero buf len fuel
      { st with calls := st.calls + 1, written := st.written + 0,
                delivered := st.delivered ++ (buf.drop st.written).take 0 } (by simpa using h)
    simpa using this

theorem write_all_whole (fuel : Nat) (w : WriteOracle) (errno : Int) (chunk stale : List Nat)
    (hle : Bounded w)
    (hret : (write_all fuel w errno (chunk ++ stale) chunk.length).returned = true)
    (hok : ∀ i req e, 0 < req → w i req ≠ .err e) :
    (write_all fuel w errno (chunk ++ stale) chunk.length).delivered = chunk := by
  have h1 := write_all_loop_complete w (chunk ++ stale) chunk.length hok fuel
    ⟨0, errno, 0, [], false⟩ rfl hret
  have h2 := write_all_loop_taken w chunk stale hle fuel ⟨0, errno, 0, [], false⟩
    (Nat.zero_le _) rfl
  rw [write_all, h2.2]
  exact List.take_of_length_le h1

theorem inOrder_relay_start (errno : Int) (buf : List Nat) : InOrder (relay_start errno buf) :=
  ⟨⟨[], List.Forall₂.nil, rfl⟩, ⟨[], List.Forall₂.nil, rfl⟩⟩

/-- Claim C9, as amended: when each successful `write` reports at most the
number of bytes requested, the bytes `write_all` has delivered are at every
moment an initial part of the chunk; they are the whole chunk when `write_all`
returns and no `write` call failed, and it does return, with the whole chunk
delivered, when every `write` call succeeds with at least one byte.  Hence in
each direction the bytes relayed by the loop are the concatenation, in read
order, of initial parts of the chunks read. -/
theorem relay_in_order (w : WriteOracle) (errno : Int) (chunk stale : List Nat)
    (hle : Bounded w) (fuel : Nat) (inputs : List IterInput) (errno0 : Int) (buf0 : List Nat)
    (hin : ∀ i ∈ inputs, i.bounded) :
    (∀ k, (write_all k w errno (chunk ++ stale) chunk.length).delivered <+: chunk)
    ∧ (∀ k, (write_all k w errno (chunk ++ stale) chunk.length).returned = true →
        (∀ i req e, 0 < req → w i req ≠ .err e) →
        (write_all k w errno (chunk ++ stale) chunk.length).delivered = chunk)
    ∧ ((∀ i req, 0 < req → ∃ n, 0 < n ∧ w i req = .ok n) →
        (write_all chunk.length w errno (chunk ++ stale) chunk.length).returned = true
        ∧ (write_all chunk.length w errno (chunk ++ stale) chunk.length).delivered = chunk)
    ∧ InOrder (relay_loop fuel inputs (relay_start errno0 buf0)).state := by
  refine ⟨fun k => write_all_delivered_initial k w errno chunk stale hle,
    fun k hret hok => write_all_whole k w errno chunk stale hle hret hok,
    fun hpos => ?_, relay_loop_inOrder fuel inputs _ hin (inOrder_relay_start errno0 buf0)⟩
  have hK : ∀ i req, 0 ≤ i → 0 < req → (w i req).stalls = false := by
    intro i req _ hreq
    obtain ⟨n, hn, e⟩ := hpos i req hreq
    simp [e, WriteResult.stalls]; omega
  have hret := (write_all_loop_returns w (chunk ++ stale) chunk.length 0 hK chunk.length
    ⟨0, errno, 0, [], false⟩ (by simp)).1
  have hok : ∀ i req e, 0 < req → w i req ≠ .err e := by
    intro i req e hreq he
    obtain ⟨n, _, e'⟩ := hpos i req hreq
    rw [e'] at he
    cases he
  exact ⟨hret, write_all_whole _ w errno chunk stale hle hret hok⟩

/-- Witness for claim C9: a two-byte chunk written one byte at a time arrives
whole, and the loop relays the bytes read from the PTY master in order. -/
theorem relay_in_order_witness :
    ((write_all 2 (fun _ req => .ok (min req 1)) 0 ([104, 105] ++ [0]) 2).returned = true
      ∧ (write_all 2 (fun _ req => .ok (min req 1)) 0 ([104, 105] ++ [0]) 2).delivered
          = [104, 105])
    ∧ InOrder (relay_loop 8 [output_hi] (relay_start 0 [])).state :=
  have h := relay_in_order (fun _ req => .ok (min req 1)) 0 [104, 105] [0]
    (fun _ req n e => by
      simp only [WriteResult.ok.injEq] at e
      omega)
    8 [output_hi] 0 []
    (fun i hi => by
      simp only [List.mem_singleton] at hi
      subst hi
      refine ⟨?_, ?_, ?_⟩ <;> intro _ req n e <;>
        simp only [output_hi, idle, WriteResult.ok.injEq] at e <;> omega)
  ⟨h.2.2.1 (fun _ req hreq => ⟨min req 1, by omega, rfl⟩), h.2.2.2⟩

/-- Claim C9 fails as stated: when every `write` succeeds with 0 bytes, no call
fails and each reports at most what was requested, yet the chunk is never
delivered and `write_all` never returns. -/
theorem write_all_zero_forever :
    Bounded (fun _ _ => .ok 0)
      ∧ (∀ i req e, (fun _ _ => WriteResult.ok 0 : WriteOracle) i req ≠ .err e)
      ∧ ¬ ∃ fuel, (write_all fuel (fun _ _ => .ok 0) 0 [104] 1).delivered = [104]
          ∨ (write_all fuel (fun _ _ => .ok 0) 0 [104] 1).returned = true := by
  refine ⟨?_, ?_, ?_⟩
  · intro _ _ n e
    simp only [WriteResult.ok.injEq] at e
    omega
  · intro _ _ _ e
    cases e
  · rintro ⟨fuel, h⟩
    have := write_all_loop_zero [104] 1 fuel ⟨0, 0, 0, [], false⟩ (by decide)
    rw [write_all, this.1, this.2] at h
    rcases h with h | h
    · cases h
    · cases h

end PtyBridge
